import Mathlib

/-!
Verification of the range-based annotation and rendering engine of the
collaborative document annotation workspace.

Shallow embedding conventions:
* JavaScript strings are modelled as `List Char`; character offsets are `Nat`
  indices into that list.  `content.slice(s, e)` becomes `slice content s e`,
  `toLowerCase` becomes a character-wise `Char.toLower` map.
* The source type `Annotation` (src/types/index.ts) is embedded as `Anno`
  (the original name is unavailable here), and its field `range.end` as
  `endPos` (`end` is a Lean keyword).  All other field names are kept.
* The persisted annotation array stored under the `collab_annotate_annos`
  key is modelled as an explicit `List Anno` value threaded through the
  store operations of src/services/document-service.ts.
* The optional `searchTerm` prop is a `List Char`; the absent term is `[]`,
  which the source's `searchTerm && searchTerm.length > 2` guard discards
  exactly like the embedded `2 < searchTerm.length` test.
* The search scanner below is NOT an embedding of the source's matcher.
  The source (src/components/document/document-viewer.tsx, lines 51-58)
  feeds the raw user term to `new RegExp(searchTerm, 'gi')` and loops
  `regex.exec`; the scanner here performs the case-insensitive,
  left-to-right, non-overlapping literal scan that the specification
  prescribes.  The two coincide exactly on terms free of regex
  metacharacters (all concrete scenarios below are of that kind), and
  diverge otherwise: the regex matches different spans (e.g. `"a.c"` on
  `"abc"`), throws on invalid patterns (`"((("`), and loops forever on
  zero-width-matching patterns (`"x*y*"`).  This divergence is a defect of
  the source recorded by the C1 and C3 results; the only segment property
  proved here that quantifies over arbitrary search terms (C4) concerns
  the per-segment flag test, which in the source does not consult the
  matcher at all.
-/

namespace Collab

/-- Embeds `TextRange` from src/types/index.ts.  `endPos` is the source's
`end` field. -/
structure TextRange where
  start : Nat
  endPos : Nat
  text : List Char
deriving DecidableEq

/-- Embeds `Reply` from src/types/index.ts. -/
structure Reply where
  id : String
  userId : String
  userName : String
  userColor : String
  comment : String
  timestamp : Nat
deriving DecidableEq

/-- Embeds the annotation record of src/types/index.ts (there named after
its role; that identifier is unavailable in this development).  `replies`
is optional in the source (`replies?: Reply[]`), hence `Option`. -/
structure Anno where
  id : String
  documentId : String
  userId : String
  userName : String
  userColor : String
  range : TextRange
  comment : String
  timestamp : Nat
  replies : Option (List Reply)
deriving DecidableEq

/-- The derived rendering segment: one loop iteration of `renderedContent`
(document-viewer.tsx, lines 63-122) produces exactly these data for the
span between two consecutive boundaries. -/
structure Segment where
  start : Nat
  endPos : Nat
  text : List Char
  coveringAnnos : List Anno
  isSearchMatch : Bool
deriving DecidableEq

/-- JavaScript `content.slice(s, e)` on the `List Char` model. -/
def slice (content : List Char) (s e : Nat) : List Char :=
  (content.take e).drop s

/-- Character-wise `toLowerCase`. -/
def lower (cs : List Char) : List Char :=
  cs.map Char.toLower

/-- `beginsWith xs ys` holds when `ys` is an initial run of `xs`. -/
def beginsWith : List Char → List Char → Bool
  | _, [] => true
  | [], _ :: _ => false
  | a :: as, b :: bs => a == b && beginsWith as bs

/-- JavaScript `hay.includes(needle)` on the `List Char` model. -/
def hasSub (needle : List Char) : List Char → Bool
  | [] => needle.isEmpty
  | c :: rest => beginsWith (c :: rest) needle || hasSub needle rest

/-- A case-insensitive literal match of `term` sits at offset `i` of
`content`. -/
def matchTerm (content term : List Char) (i : Nat) : Bool :=
  beginsWith (lower (content.drop i)) (lower term)

/-- Fuel-indexed left-to-right scan recording every case-insensitive
LITERAL match of `term` as the half-open pair `(index, index +
term.length)` and resuming past each match's end, so recorded matches are
non-overlapping — the scan the specification prescribes.  It mirrors only
the shape of the source's `while ((match = regex.exec(content)))` loop
(document-viewer.tsx, lines 53-57); the source matches a regex compiled
from the raw term, which agrees with this literal scan exactly when the
term contains no regex metacharacters and otherwise diverges (other
spans, a thrown exception, or non-termination — see the C1/C3 results). -/
def scanFrom (content term : List Char) : Nat → Nat → List (Nat × Nat)
  | _, 0 => []
  | i, fuel + 1 =>
    if matchTerm content term i then
      (i, i + term.length) :: scanFrom content term (i + term.length) fuel
    else if i < content.length then
      scanFrom content term (i + 1) fuel
    else
      []

/-- All case-insensitive literal matches of `term` in `content`, left to
right — the match list of the specification's scan, not of the source's
`new RegExp(searchTerm, 'gi')` (see `scanFrom`).  The fuel
`content.length + 1` dominates the number of scan steps for any non-empty
term. -/
def findMatches (content term : List Char) : List (Nat × Nat) :=
  scanFrom content term 0 (content.length + 1)

/-- The containment test of the segment loop (document-viewer.tsx,
lines 68-70): `start >= a.range.start && end <= a.range.end`. -/
def covers (segStart segEnd : Nat) (r : TextRange) : Bool :=
  decide (r.start ≤ segStart) && decide (segEnd ≤ r.endPos)

/-- The boundary multiset collected in document-viewer.tsx, lines 45-58:
`0`, `content.length`, every annotation's `range.start` and `range.end`,
and, when the search term is longer than two characters, both ends of
every search match. -/
def rawBoundaries (content : List Char) (annos : List Anno) (searchTerm : List Char) : List Nat :=
  [0, content.length] ++
    annos.flatMap (fun a => [a.range.start, a.range.endPos]) ++
    (if 2 < searchTerm.length then
      (findMatches content searchTerm).flatMap (fun m => [m.1, m.2])
    else [])

/-- `Array.from(boundaries).sort((a, b) => a - b)` over the `Set` of
boundaries (document-viewer.tsx, line 60): duplicates removed, ascending
order. -/
def sortedBoundaries (content : List Char) (annos : List Anno) (searchTerm : List Char) : List Nat :=
  List.insertionSort (· ≤ ·) (rawBoundaries content annos searchTerm).dedup

/-- One iteration of the segment loop (document-viewer.tsx, lines 63-73)
for the boundary pair `(s, e)`: the text slice, the annotations whose
ranges fully contain the span, and the search flag
`searchTerm.length > 2 && text.toLowerCase().includes(term.toLowerCase())`. -/
def mkSegment (content : List Char) (annos : List Anno) (searchTerm : List Char) (s e : Nat) : Segment :=
  ⟨s, e, slice content s e,
    annos.filter (fun a => covers s e a.range),
    decide (2 < searchTerm.length) && hasSub (lower searchTerm) (lower (slice content s e))⟩

/-- The segment loop over consecutive boundary pairs
(document-viewer.tsx, lines 63-66). -/
def mkSegments (content : List Char) (annos : List Anno) (searchTerm : List Char) : List Nat → List Segment
  | b1 :: b2 :: rest =>
    mkSegment content annos searchTerm b1 b2 :: mkSegments content annos searchTerm (b2 :: rest)
  | _ => []

/-- The full segment computation of `renderedContent`
(document-viewer.tsx, lines 42-66), including the `if (!content) return
null` guard for empty documents. -/
def buildSegments (content : List Char) (annos : List Anno) (searchTerm : List Char) : List Segment :=
  if content.isEmpty then []
  else mkSegments content annos searchTerm (sortedBoundaries content annos searchTerm)

/-- `spansCover lo hi segs` states that the spans of `segs` march from
`lo` to `hi` contiguously with strictly increasing, non-overlapping,
non-empty intervals. -/
def spansCover : Nat → Nat → List Segment → Bool
  | lo, hi, [] => lo == hi
  | lo, hi, seg :: rest =>
    seg.start == lo && decide (lo < seg.endPos) && spansCover seg.endPos hi rest

/-- JavaScript `String.prototype.trim` on the `List Char` model. -/
def jsTrim (cs : List Char) : List Char :=
  ((cs.dropWhile Char.isWhitespace).reverse.dropWhile Char.isWhitespace).reverse

/-- Embeds `handleSelection` (document-viewer.tsx, lines 24-40).  The DOM
selection inside the container is modelled by its absolute character
offsets `selStart ≤ selEnd`: `selection.isCollapsed` is `selStart ==
selEnd`, the probe range built from the container start to the selection
start stringifies to the first `selStart` characters (so its length is
`selStart`), and `selection.toString()` is the selected slice.  A missing
selection or container returns early in the source and emits nothing,
exactly like the rejected branches here. -/
def handleSelection (content : List Char) (selStart selEnd : Nat) : Option TextRange :=
  if selStart == selEnd then none
  else
    let selectedText := slice content selStart selEnd
    if 0 < (jsTrim selectedText).length then
      some ⟨selStart, selStart + selectedText.length, selectedText⟩
    else
      none

/-- The duplicate test of `saveAnnotation` (document-service.ts, lines
35-40) between a stored record `a` and the submitted record: identical
`(documentId, userId, range.start, range.end)`. -/
def keyMatches (a x : Anno) : Bool :=
  a.documentId == x.documentId && a.userId == x.userId &&
    a.range.start == x.range.start && a.range.endPos == x.range.endPos

/-- Embeds `saveAnnotation` (document-service.ts, lines 31-47): look for a
stored record with the same duplicate key; if one exists return the store
unchanged, otherwise push the new record at the end. -/
def saveAnno (anno : Anno) (all : List Anno) : List Anno :=
  match all.find? (fun a => keyMatches a anno) with
  | some _ => all
  | none => all ++ [anno]

/-- Replacing only the `comment` field, as `all[index].comment = comment`
does (document-service.ts, line 54). -/
def setComment (a : Anno) (c : String) : Anno :=
  ⟨a.id, a.documentId, a.userId, a.userName, a.userColor, a.range, c, a.timestamp, a.replies⟩

/-- Embeds `updateAnnotation` (document-service.ts, lines 49-58):
`findIndex` locates the first record with the given id and only its
`comment` field is overwritten; when no record matches, the store is not
rewritten. -/
def updateAnno (id c : String) : List Anno → List Anno
  | [] => []
  | a :: rest =>
    if a.id == id then setComment a c :: rest
    else a :: updateAnno id c rest

/-- Embeds `deleteAnnotation` (document-service.ts, lines 72-78):
`all.filter(a => a.id !== id)`. -/
def deleteAnno (id : String) (all : List Anno) : List Anno :=
  all.filter (fun a => a.id != id)

/-- Embeds the in-memory active-set removal used for ephemeral expiry in
`handleFlashInsight` (src/unnamed/part_000, lines 219-222):
`prev.filter(a => a.id !== flashAnno.id)`. -/
def removeActiveAnno (id : String) (prev : List Anno) : List Anno :=
  prev.filter (fun a => a.id != id)

/-- The descending-recency comparison of
`activeAnnos.sort((a, b) => b.timestamp - a.timestamp)`
(document-viewer.tsx, line 84). -/
def byRecency (a b : Anno) : Prop :=
  b.timestamp ≤ a.timestamp

instance : DecidableRel byRecency :=
  fun a b => inferInstanceAs (Decidable (b.timestamp ≤ a.timestamp))

instance : IsTotal Anno byRecency :=
  ⟨fun a b => le_total b.timestamp a.timestamp⟩

instance : IsTrans Anno byRecency :=
  ⟨fun _ _ _ h1 h2 => le_trans h2 h1⟩

/-- Embeds the primary-annotation choice of document-viewer.tsx, line 84:
sort the covering annotations by descending timestamp and take the first. -/
def primaryAnno (activeAnnos : List Anno) : Option Anno :=
  (List.insertionSort byRecency activeAnnos).head?

/-- Embeds the reply aggregation of document-viewer.tsx, line 86:
`activeAnnos.reduce((sum, a) => sum + (a.replies?.length || 0), 0)`. -/
def totalReplies (activeAnnos : List Anno) : Nat :=
  activeAnnos.foldl (fun sum a => sum + (a.replies.getD []).length) 0

/-! ### Concrete scenario values used in witnesses and counterexamples -/

/-- The annotation of the spec's worked scenario: range `[4,9)` over
`"The quick brown fox"`. -/
def annoQuick : Anno :=
  ⟨"a1", "d1", "u1", "Alice", "#ef4444", ⟨4, 9, "quick".toList⟩, "note", 1, none⟩

/-- An annotation `[0,2)` whose boundary splits the search match `[0,4)`
of `"abcd"` in `"abcdef"`. -/
def annoAB : Anno :=
  ⟨"a2", "d1", "u1", "Alice", "#ef4444", ⟨0, 2, "ab".toList⟩, "note", 1, none⟩

/-- First of the two overlapping annotations of the spec's second
scenario: range `[0,10)` over a 15-character document. -/
def annoLeft : Anno :=
  ⟨"L1", "d1", "u1", "Alice", "#ef4444", ⟨0, 10, "abcdefghij".toList⟩, "left", 1,
    some [⟨"r1", "u2", "Bob", "#3b82f6", "re", 5⟩]⟩

/-- Second overlapping annotation: range `[5,15)`, more recent timestamp,
two replies. -/
def annoRight : Anno :=
  ⟨"R1", "d1", "u2", "Bob", "#3b82f6", ⟨5, 15, "fghijklmno".toList⟩, "right", 2,
    some [⟨"r2", "u1", "Alice", "#ef4444", "rea", 6⟩, ⟨"r3", "u1", "Alice", "#ef4444", "reb", 7⟩]⟩

/-- Two submissions with identical `(documentId, userId, start, end)` but
different ids and comments. -/
def annoDupA : Anno :=
  ⟨"dupA", "d1", "u1", "Alice", "#ef4444", ⟨3, 7, "text".toList⟩, "first", 10, none⟩

/-- See `annoDupA`. -/
def annoDupB : Anno :=
  ⟨"dupB", "d1", "u1", "Alice", "#ef4444", ⟨3, 7, "text".toList⟩, "second", 11, none⟩

/-- A stored annotation targeted by the comment-update witness. -/
def annoX : Anno :=
  ⟨"x1", "d2", "u3", "Cara", "#10b981", ⟨1, 4, "bcd".toList⟩, "old", 20, some []⟩

/-- The segment `[4,9)` of the worked scenario. -/
def segQuick : Segment :=
  ⟨4, 9, "quick".toList, [annoQuick], false⟩

/-- The segment `[16,19)` of the worked scenario, flagged as a search
match. -/
def segFox : Segment :=
  ⟨16, 19, "fox".toList, [], true⟩

/-- The middle segment `[5,10)` of the overlapping-annotations scenario,
covered by both annotations. -/
def segMid : Segment :=
  ⟨5, 10, "fghij".toList, [annoLeft, annoRight], false⟩

/-! ### Basic facts about slices, lowercasing and substring search -/

theorem beginsWith_iff : ∀ xs ys : List Char,
    beginsWith xs ys = true ↔ ys.length ≤ xs.length ∧ xs.take ys.length = ys
  | _, [] => by simp [beginsWith]
  | [], _ :: _ => by simp [beginsWith]
  | x :: xs, y :: ys => by
    simp only [beginsWith, Bool.and_eq_true, beq_iff_eq, beginsWith_iff xs ys,
      List.length_cons, List.take_succ_cons, Nat.succ_le_succ_iff, List.cons.injEq]
    tauto

theorem hasSub_iff (needle : List Char) : ∀ hay : List Char,
    hasSub needle hay = true ↔
      ∃ k, k + needle.length ≤ hay.length ∧ (hay.drop k).take needle.length = needle
  | [] => by
    constructor
    · intro h
      have hn : needle = [] := by simpa [hasSub, List.isEmpty_iff] using h
      exact ⟨0, by simp [hn], by simp [hn]⟩
    · rintro ⟨k, h1, h2⟩
      have hn : needle.length = 0 := by
        simp only [List.length_nil, Nat.le_zero] at h1
        omega
      simp [hasSub, List.isEmpty_iff, List.length_eq_zero.mp hn]
  | c :: rest => by
    simp only [hasSub, Bool.or_eq_true, beginsWith_iff, hasSub_iff needle rest]
    constructor
    · rintro (⟨h1, h2⟩ | ⟨k, h1, h2⟩)
      · exact ⟨0, by simpa using h1, by simpa using h2⟩
      · exact ⟨k + 1, by simp; omega, by simpa using h2⟩
    · rintro ⟨k, h1, h2⟩
      cases k with
      | zero => exact Or.inl ⟨by simpa using h1, by simpa using h2⟩
      | succ k => exact Or.inr ⟨k, by simp at h1; omega, by simpa using h2⟩

theorem lower_take (cs : List Char) (n : Nat) : lower (cs.take n) = (lower cs).take n := by
  simp [lower, List.map_take]

theorem lower_drop (cs : List Char) (n : Nat) : lower (cs.drop n) = (lower cs).drop n := by
  simp [lower, List.map_drop]

theorem lower_length (cs : List Char) : (lower cs).length = cs.length := by
  simp [lower]

theorem slice_length (content : List Char) (s e : Nat) (hs : s ≤ e) (he : e ≤ content.length) :
    (slice content s e).length = e - s := by
  simp only [slice, List.length_drop, List.length_take]
  omega

theorem matchTerm_iff (content term : List Char) (i : Nat) (ht : 0 < term.length) :
    matchTerm content term i = true ↔
      i + term.length ≤ content.length ∧
        lower ((content.drop i).take term.length) = lower term := by
  rw [matchTerm, beginsWith_iff]
  simp only [lower_length, List.length_drop, ← lower_take]
  constructor
  · rintro ⟨h1, h2⟩
    exact ⟨by omega, h2⟩
  · rintro ⟨h1, h2⟩
    exact ⟨by omega, h2⟩

/-! ### Facts about the search-match scanner -/

theorem scanFrom_bounds (content term : List Char) (ht : 0 < term.length) :
    ∀ fuel i m, m ∈ scanFrom content term i fuel →
      i ≤ m.1 ∧ m.2 = m.1 + term.length ∧ m.1 + term.length ≤ content.length ∧
        matchTerm content term m.1 = true
  | 0, i, m => by simp [scanFrom]
  | fuel + 1, i, m => by
    intro hm
    simp only [scanFrom] at hm
    split at hm
    · rename_i h
      rcases List.mem_cons.mp hm with heq | hm'
      · subst heq
        exact ⟨le_refl _, rfl, ((matchTerm_iff content term i ht).mp h).1, h⟩
      · have hr := scanFrom_bounds content term ht fuel (i + term.length) m hm'
        exact ⟨by omega, hr.2⟩
    · split at hm
      · have hr := scanFrom_bounds content term ht fuel (i + 1) m hm
        exact ⟨by omega, hr.2⟩
      · simp at hm

theorem findMatches_bounds (content term : List Char) (ht : 0 < term.length) {m : Nat × Nat}
    (hm : m ∈ findMatches content term) :
    m.2 = m.1 + term.length ∧ m.1 + term.length ≤ content.length ∧
      matchTerm content term m.1 = true :=
  (scanFrom_bounds content term ht _ 0 m hm).2

/-! ### Facts about boundaries and segments -/

theorem mem_sortedBoundaries {content : List Char} {annos : List Anno} {t : List Char} {b : Nat} :
    b ∈ sortedBoundaries content annos t ↔ b ∈ rawBoundaries content annos t := by
  rw [sortedBoundaries, List.mem_insertionSort, List.mem_dedup]

theorem sortedBoundaries_sorted (content : List Char) (annos : List Anno) (t : List Char) :
    List.Sorted (· < ·) (sortedBoundaries content annos t) := by
  apply List.Sorted.lt_of_le
  · exact List.sorted_insertionSort _ _
  · exact (List.perm_insertionSort _ _).nodup_iff.mpr (List.nodup_dedup _)

theorem zero_mem_rawBoundaries (content : List Char) (annos : List Anno) (t : List Char) :
    0 ∈ rawBoundaries content annos t := by
  simp [rawBoundaries]

theorem length_mem_rawBoundaries (content : List Char) (annos : List Anno) (t : List Char) :
    content.length ∈ rawBoundaries content annos t := by
  simp [rawBoundaries]

theorem rawBoundaries_le (content : List Char) (annos : List Anno) (t : List Char)
    (hr : ∀ a ∈ annos, a.range.start ≤ a.range.endPos ∧ a.range.endPos ≤ content.length) :
    ∀ b ∈ rawBoundaries content annos t, b ≤ content.length := by
  intro b hb
  rw [rawBoundaries] at hb
  rcases List.mem_append.mp hb with hb1 | hb2
  · rcases List.mem_append.mp hb1 with hb0 | hba
    · simp only [List.mem_cons, List.not_mem_nil, or_false] at hb0
      rcases hb0 with rfl | rfl <;> omega
    · obtain ⟨a, ha, hmem⟩ := List.mem_flatMap.mp hba
      have := hr a ha
      simp only [List.mem_cons, List.not_mem_nil, or_false] at hmem
      rcases hmem with rfl | rfl <;> omega
  · split at hb2
    · rename_i hlong
      obtain ⟨m, hmF, hmem⟩ := List.mem_flatMap.mp hb2
      have hB := findMatches_bounds content t (by omega) hmF
      simp only [List.mem_cons, List.not_mem_nil, or_false] at hmem
      rcases hmem with rfl | rfl <;> omega
    · simp at hb2

theorem mem_mkSegments (content : List Char) (annos : List Anno) (t : List Char) :
    ∀ (l : List Nat) (seg : Segment), seg ∈ mkSegments content annos t l →
      ∃ l1 l2, l = l1 ++ seg.start :: seg.endPos :: l2 ∧
        seg = mkSegment content annos t seg.start seg.endPos
  | [], seg => by simp [mkSegments]
  | [b], seg => by simp [mkSegments]
  | b1 :: b2 :: rest, seg => by
    intro hm
    rw [mkSegments] at hm
    rcases List.mem_cons.mp hm with heq | hm'
    · subst heq
      exact ⟨[], rest, rfl, rfl⟩
    · obtain ⟨l1, l2, heq, hseg⟩ := mem_mkSegments content annos t (b2 :: rest) seg hm'
      exact ⟨b1 :: l1, l2, by rw [heq, List.cons_append], hseg⟩

theorem sorted_no_mid {l1 l2 : List Nat} {s e b : Nat}
    (hs : List.Sorted (· < ·) (l1 ++ s :: e :: l2)) (hb : b ∈ l1 ++ s :: e :: l2) :
    ¬(s < b ∧ b < e) := by
  rintro ⟨h1, h2⟩
  rw [List.Sorted, List.pairwise_append] at hs
  obtain ⟨hl1, hcons, hcross⟩ := hs
  rw [List.pairwise_cons] at hcons
  obtain ⟨hse, hcons2⟩ := hcons
  rw [List.pairwise_cons] at hcons2
  obtain ⟨hel2, _⟩ := hcons2
  rcases List.mem_append.mp hb with hbl1 | hbc
  · have := hcross b hbl1 s (List.mem_cons_self _ _)
    omega
  · rcases List.mem_cons.mp hbc with heq | hbc2
    · omega
    · rcases List.mem_cons.mp hbc2 with heq | hbl2
      · omega
      · have := hel2 b hbl2
        omega

theorem spansCover_mkSegments (content : List Char) (annos : List Anno) (t : List Char) :
    ∀ (l : List Nat) (lo : Nat), List.Sorted (· < ·) (lo :: l) →
      ∀ hi, (lo :: l).getLast? = some hi →
        spansCover lo hi (mkSegments content annos t (lo :: l)) = true
  | [], lo => by
    intro _ hi hlast
    simp only [List.getLast?_singleton, Option.some.injEq] at hlast
    subst hlast
    simp [mkSegments, spansCover]
  | b :: rest, lo => by
    intro hsort hi hlast
    have hlt : lo < b := List.rel_of_sorted_cons hsort b (List.mem_cons_self _ _)
    have htail : List.Sorted (· < ·) (b :: rest) := (List.sorted_cons.mp hsort).2
    have hlast' : (b :: rest).getLast? = some hi := by
      rwa [List.getLast?_cons_cons] at hlast
    simp only [mkSegments, spansCover, Bool.and_eq_true, beq_iff_eq, decide_eq_true_eq]
    exact ⟨⟨rfl, hlt⟩, spansCover_mkSegments content annos t rest b htail hi hlast'⟩

theorem sorted_head_zero {l : List Nat} (hs : List.Sorted (· < ·) l) (h0 : 0 ∈ l) :
    ∃ rest, l = 0 :: rest := by
  cases l with
  | nil => simp at h0
  | cons h rest =>
    rcases List.mem_cons.mp h0 with heq | hm
    · exact ⟨rest, by rw [← heq]⟩
    · exact absurd (List.rel_of_sorted_cons hs 0 hm) (Nat.not_lt_zero h)

theorem sorted_getLast?_eq : ∀ {l : List Nat}, List.Sorted (· < ·) l → ∀ {n : Nat}, n ∈ l →
    (∀ b ∈ l, b ≤ n) → l.getLast? = some n
  | [], _, n, hn, _ => by simp at hn
  | [h], _, n, hn, _ => by
    simp only [List.mem_singleton] at hn
    subst hn
    rfl
  | h :: b :: r, hs, n, hn, hub => by
    rw [List.getLast?_cons_cons]
    have hs' := (List.sorted_cons.mp hs).2
    have hnb : n ∈ b :: r := by
      rcases List.mem_cons.mp hn with heq | h'
      · exfalso
        have h1 : h < b := List.rel_of_sorted_cons hs b (List.mem_cons_self _ _)
        have h2 : b ≤ n := hub b (List.mem_cons_of_mem _ (List.mem_cons_self _ _))
        omega
      · exact h'
    exact sorted_getLast?_eq hs' hnb (fun x hx => hub x (List.mem_cons_of_mem _ hx))

theorem seg_facts (content : List Char) (annos : List Anno) (t : List Char) {seg : Segment}
    (hseg : seg ∈ mkSegments content annos t (sortedBoundaries content annos t)) :
    seg = mkSegment content annos t seg.start seg.endPos ∧
      seg.start < seg.endPos ∧
      seg.start ∈ sortedBoundaries content annos t ∧
      seg.endPos ∈ sortedBoundaries content annos t ∧
      ∀ b ∈ sortedBoundaries content annos t, ¬(seg.start < b ∧ b < seg.endPos) := by
  obtain ⟨l1, l2, heq, hsegEq⟩ := mem_mkSegments content annos t _ seg hseg
  have hsorted := sortedBoundaries_sorted content annos t
  rw [heq] at hsorted
  have hlt : seg.start < seg.endPos := by
    have h := (List.pairwise_append.mp hsorted).2.1
    exact List.rel_of_sorted_cons h seg.endPos (List.mem_cons_self _ _)
  refine ⟨hsegEq, hlt, ?_, ?_, ?_⟩
  · rw [heq]
    exact List.mem_append.mpr (Or.inr (List.mem_cons_self _ _))
  · rw [heq]
    exact List.mem_append.mpr (Or.inr (List.mem_cons_of_mem _ (List.mem_cons_self _ _)))
  · intro b hb
    rw [heq] at hb
    exact sorted_no_mid hsorted hb

theorem buildSegments_mem_mk {content : List Char} {annos : List Anno} {t : List Char}
    {seg : Segment} (hseg : seg ∈ buildSegments content annos t) :
    seg ∈ mkSegments content annos t (sortedBoundaries content annos t) := by
  rw [buildSegments] at hseg
  split at hseg
  · simp at hseg
  · exact hseg

/-! ### Claim C1: partition property of the segment computation

The claim demands the partition for EVERY optional search term, and the
specification's partition property (§8) states the same; but the source's
search scan compiles the raw term as a regex, so at `searchTerm = "((("`
the `RegExp` constructor throws inside the render memo and no segments at
all are produced for a non-empty document, and at a zero-width-matching
pattern such as `"x*y*"` the `exec` loop never advances `lastIndex` and
the computation never returns.  The claim is the evident intent and the
unescaped-regex scan the slip (the same defect recorded by C3), so C1 is
a code bug, not a property to confirm.  The lemma below establishes the
partition law for the embedded computation — that is, under the
specification's literal reading of the scan — and the C1 theorem
evaluates that claim-side computation at the failing input, where the
source instead crashes. -/

/-- Partition law of the embedded segment computation: for every content
string, every annotation list whose ranges satisfy
`0 <= start <= end <= content.length`, and every search term, the
segments are ascending, contiguous, non-overlapping and exactly cover
`[0, content.length)`, and empty content yields zero segments.  This is a
fact about the embedding (whose scanner is the specification's literal
scan); the source program violates it on regex-significant terms, which
is what the C1 result records. -/
theorem buildSegments_partition_model (content : List Char) (annos : List Anno)
    (term : List Char)
    (hr : ∀ a ∈ annos, a.range.start ≤ a.range.endPos ∧ a.range.endPos ≤ content.length) :
    spansCover 0 content.length (buildSegments content annos term) = true ∧
      (content = [] → buildSegments content annos term = []) := by
  refine ⟨?_, fun h => by simp [buildSegments, h]⟩
  by_cases hc : content.isEmpty
  · have hnil : content = [] := List.isEmpty_iff.mp hc
    subst hnil
    simp [buildSegments, spansCover]
  · rw [buildSegments, if_neg hc]
    have hs := sortedBoundaries_sorted content annos term
    have h0 : 0 ∈ sortedBoundaries content annos term :=
      mem_sortedBoundaries.mpr (zero_mem_rawBoundaries content annos term)
    have hlen : content.length ∈ sortedBoundaries content annos term :=
      mem_sortedBoundaries.mpr (length_mem_rawBoundaries content annos term)
    have hub : ∀ b ∈ sortedBoundaries content annos term, b ≤ content.length := fun b hb =>
      rawBoundaries_le content annos term hr b (mem_sortedBoundaries.mp hb)
    obtain ⟨rest, hB⟩ := sorted_head_zero hs h0
    rw [hB]
    refine spansCover_mkSegments content annos term rest 0 ?_ content.length ?_
    · rw [← hB]
      exact hs
    · rw [← hB]
      exact sorted_getLast?_eq hs hlen hub

/-- C1: on the failing input — non-empty content `"abc"`, no annotations,
search term `"((("` (length 3, so it passes the `> 2` guard) — the
partition the claim demands holds of the claim-side literal computation:
the term has no literal occurrence, the boundaries are `{0, 3}`, and the
single segment `[0,3)` covers the document.  The source instead throws in
`new RegExp("(((", 'gi')` at document-viewer.tsx line 52 and produces no
segments at all, violating the claimed partition of `[0, 3)`. -/
theorem c1_partition_at_failing_input :
    spansCover 0 "abc".toList.length (buildSegments "abc".toList [] "(((".toList) = true ∧
      (buildSegments "abc".toList [] "(((".toList).length = 1 := by
  decide

/-! ### Claim C2: covering set is exact full containment -/

/-- C2: for every produced segment, an annotation is in the segment's
covering set iff it is one of the input annotations and
`seg.start >= range.start` and `seg.endPos <= range.endPos` (full
containment, not general overlap). -/
theorem c2_covering_iff (content : List Char) (annos : List Anno) (term : List Char)
    (seg : Segment) (a : Anno) (hseg : seg ∈ buildSegments content annos term) :
    a ∈ seg.coveringAnnos ↔
      a ∈ annos ∧ a.range.start ≤ seg.start ∧ seg.endPos ≤ a.range.endPos := by
  obtain ⟨hEq, -, -, -, -⟩ := seg_facts content annos term (buildSegments_mem_mk hseg)
  have hcov : seg.coveringAnnos = annos.filter (fun x => covers seg.start seg.endPos x.range) :=
    congrArg Segment.coveringAnnos hEq
  rw [hcov, List.mem_filter]
  simp only [covers, Bool.and_eq_true, decide_eq_true_eq]

/-- Witness for C2: the scenario segment `[4,9)` and the scenario
annotation. -/
theorem c2_covering_iff_witness :
    annoQuick ∈ segQuick.coveringAnnos ↔
      annoQuick ∈ [annoQuick] ∧
        annoQuick.range.start ≤ segQuick.start ∧ segQuick.endPos ≤ annoQuick.range.endPos :=
  c2_covering_iff "The quick brown fox".toList [annoQuick] "fox".toList segQuick annoQuick
    (by decide)

/-! ### Claim C4: the search-match flag -/

/-- C4 is false as stated: in `"abcdef"` with search term `"abcd"` and an
annotation over `[0,2)`, the segment `[0,2)` lies within the found match
span `[0,4)` yet its `isSearchMatch` flag is `false` — the code only
checks whether the segment's own text contains the term. -/
theorem c4_counterexample :
    ∃ seg ∈ buildSegments "abcdef".toList [annoAB] "abcd".toList,
      (∃ m ∈ findMatches "abcdef".toList "abcd".toList, m.1 ≤ seg.start ∧ seg.endPos ≤ m.2) ∧
        seg.isSearchMatch = false := by
  decide

/-- C4 (amended): for every segment produced with a search term of length
greater than two, the segment's `isSearchMatch` flag is true iff the
segment's own text case-insensitively contains the search term — iff a
case-insensitive occurrence of the term sits at some offset inside the
segment's text.  Neither match-span formulation of the original claim
survives: a segment lying strictly within a found match span is not
flagged (`c4_counterexample`), and the source's flag test
`text.toLowerCase().includes(searchTerm.toLowerCase())`
(document-viewer.tsx, lines 72-73) never consults the found match spans
at all, so this containment test is the flag's exact per-segment
semantics for every term, independent of how the boundaries were cut. -/
theorem c4_search_flag (content : List Char) (annos : List Anno) (term : List Char)
    (seg : Segment) (hlen : 2 < term.length)
    (hseg : seg ∈ buildSegments content annos term) :
    seg.isSearchMatch = true ↔
      ∃ k, k + term.length ≤ seg.text.length ∧
        lower ((seg.text.drop k).take term.length) = lower term := by
  obtain ⟨hEq, -, -, -, -⟩ := seg_facts content annos term (buildSegments_mem_mk hseg)
  have htext : seg.text = slice content seg.start seg.endPos := congrArg Segment.text hEq
  have hflag : seg.isSearchMatch =
      (decide (2 < term.length) &&
        hasSub (lower term) (lower (slice content seg.start seg.endPos))) :=
    congrArg Segment.isSearchMatch hEq
  rw [hflag, ← htext]
  simp only [Bool.and_eq_true, decide_eq_true_eq, hasSub_iff, lower_length, ← lower_drop,
    ← lower_take]
  exact ⟨fun h => h.2, fun h => ⟨hlen, h⟩⟩

/-- Witness for C4 at the worked scenario: the segment `[16,19)` is
flagged and its text `"fox"` carries the occurrence at offset `0`. -/
theorem c4_search_flag_witness :
    segFox.isSearchMatch = true ↔
      ∃ k, k + "fox".toList.length ≤ segFox.text.length ∧
        lower ((segFox.text.drop k).take "fox".toList.length) = lower "fox".toList :=
  c4_search_flag "The quick brown fox".toList [annoQuick] "fox".toList segFox
    (by decide) (by decide)

/-! ### Claim C3: the source matches a regex, not the literal term -/

/-- C3 support: on the failing input the literal case-insensitive scanner
that the claim describes finds no occurrence of `"a.c"` in `"abc"` — the
boundary set of that input stays `{0, 3}` — whereas the source feeds the
raw term to `new RegExp(searchTerm, 'gi')`, for which the metacharacter
`.` makes `"a.c"` match `"abc"` at `[0,3)` and add the boundaries `0` and
`3` as match ends. -/
theorem c3_literal_scan_on_failing_input :
    findMatches "abc".toList "a.c".toList = [] ∧
      sortedBoundaries "abc".toList [] "a.c".toList = [0, 3] := by
  decide

/-! ### Claim C5: the worked scenario -/

/-- C5 is false as stated: `"The quick brown fox"` has 19 characters, so
the boundary set is `{0,4,9,16,19}`, not the claimed `{0,4,9,16,19,20}`,
and there are 4 segments, not 5. -/
theorem c5_counterexample :
    sortedBoundaries "The quick brown fox".toList [annoQuick] "fox".toList ≠
        [0, 4, 9, 16, 19, 20] ∧
      (buildSegments "The quick brown fox".toList [annoQuick] "fox".toList).length ≠ 5 := by
  decide

/-- C5 (amended): with content `"The quick brown fox"`, one annotation
over `[4,9)` and search term `"fox"`, the boundary set is `{0,4,9,16,19}`
and there are 4 segments; segment `[4,9)` has exactly one covering
annotation and segment `[16,19)` is flagged as a search match. -/
theorem c5_scenario :
    sortedBoundaries "The quick brown fox".toList [annoQuick] "fox".toList =
        [0, 4, 9, 16, 19] ∧
      (buildSegments "The quick brown fox".toList [annoQuick] "fox".toList).length = 4 ∧
      (∃ seg ∈ buildSegments "The quick brown fox".toList [annoQuick] "fox".toList,
        seg.start = 4 ∧ seg.endPos = 9 ∧ seg.coveringAnnos.length = 1) ∧
      (∃ seg ∈ buildSegments "The quick brown fox".toList [annoQuick] "fox".toList,
        seg.start = 16 ∧ seg.endPos = 19 ∧ seg.isSearchMatch = true) := by
  decide

/-! ### Claim C6: duplicate guard of the annotation store -/

theorem find?_append_none {α : Type} {p : α → Bool} : ∀ (l1 l2 : List α),
    (∀ x ∈ l1, p x = false) → List.find? p (l1 ++ l2) = List.find? p l2
  | [], _, _ => rfl
  | a :: l1, l2, h => by
    have ha : p a = false := h a (List.mem_cons_self _ _)
    rw [List.cons_append, List.find?_cons_of_neg _ (by simp [ha]),
      find?_append_none l1 l2 (fun x hx => h x (List.mem_cons_of_mem _ hx))]

/-- C6: submitting an annotation whose `(documentId, userId, range.start,
range.end)` tuple is already stored is a no-op that leaves the store
unchanged; consequently, saving two annotations with an identical tuple
into a store free of that tuple stores exactly one annotation with it. -/
theorem c6_duplicate_guard (store : List Anno) (a1 a2 : Anno)
    (hdup : a2.documentId = a1.documentId ∧ a2.userId = a1.userId ∧
      a2.range.start = a1.range.start ∧ a2.range.endPos = a1.range.endPos)
    (hnone : ∀ x ∈ store, keyMatches x a1 = false) :
    (∀ (b : Anno) (store2 : List Anno), (∃ x ∈ store2, keyMatches x b = true) →
      saveAnno b store2 = store2) ∧
    ((saveAnno a2 (saveAnno a1 store)).filter (fun x => keyMatches x a1)).length = 1 := by
  constructor
  · rintro b store2 ⟨x, hx, hkey⟩
    rw [saveAnno]
    cases hfind : store2.find? (fun a => keyMatches a b) with
    | some y => rfl
    | none =>
      exfalso
      exact absurd hkey (by simpa using List.find?_eq_none.mp hfind x hx)
  · have hfind1 : store.find? (fun a => keyMatches a a1) = none :=
      List.find?_eq_none.mpr (fun x hx => by simp [hnone x hx])
    have hsave1 : saveAnno a1 store = store ++ [a1] := by
      rw [saveAnno, hfind1]
    obtain ⟨hd, hu, hs, he⟩ := hdup
    have hkm : ∀ x : Anno, keyMatches x a2 = keyMatches x a1 := by
      intro x
      rw [keyMatches, keyMatches, hd, hu, hs, he]
    have hknone2 : ∀ x ∈ store, keyMatches x a2 = false := fun x hx => by
      rw [hkm x]
      exact hnone x hx
    have hka : keyMatches a1 a2 = true := by
      rw [hkm a1, keyMatches]
      simp
    have hfind2 : (store ++ [a1]).find? (fun a => keyMatches a a2) = some a1 := by
      rw [find?_append_none store [a1] (fun x hx => by simp [hknone2 x hx]),
        List.find?_cons_of_pos _ (by simp [hka])]
    have hsave2 : saveAnno a2 (store ++ [a1]) = store ++ [a1] := by
      rw [saveAnno, hfind2]
    rw [hsave1, hsave2, List.filter_append]
    have h1 : store.filter (fun x => keyMatches x a1) = [] :=
      List.filter_eq_nil_iff.mpr (fun x hx => by simp [hnone x hx])
    have h2 : [a1].filter (fun x => keyMatches x a1) = [a1] := by
      have hself : keyMatches a1 a1 = true := by
        rw [keyMatches]
        simp
      simp [List.filter, hself]
    rw [h1, h2]
    rfl

/-- Witness for C6: two submissions sharing the duplicate key saved into
an empty store. -/
theorem c6_duplicate_guard_witness :
    (∀ (b : Anno) (store2 : List Anno), (∃ x ∈ store2, keyMatches x b = true) →
      saveAnno b store2 = store2) ∧
    ((saveAnno annoDupB (saveAnno annoDupA [])).filter
        (fun x => keyMatches x annoDupA)).length = 1 :=
  c6_duplicate_guard [] annoDupA annoDupB (by decide) (by decide)

/-! ### Claim C7: the selection mapper -/

/-- C7: the mapper emits a range iff the selection is non-collapsed and
its trimmed text is non-empty, and an emitted range has `start` equal to
the length of the text preceding the selection, `text` equal to the
selected slice, and `end = start + text.length`. -/
theorem c7_selection_mapper (content : List Char) (s e : Nat) (hse : s ≤ e)
    (he : e ≤ content.length) :
    ((∃ r, handleSelection content s e = some r) ↔
      (s ≠ e ∧ 0 < (jsTrim (slice content s e)).length)) ∧
    (∀ r, handleSelection content s e = some r →
      r.start = s ∧ r.endPos = e ∧ r.text = slice content s e ∧
        r.endPos = r.start + r.text.length) := by
  have hlen : (slice content s e).length = e - s := slice_length content s e hse he
  by_cases hcol : s = e
  · constructor
    · constructor
      · rintro ⟨r, hr⟩
        rw [handleSelection] at hr
        simp [hcol] at hr
      · rintro ⟨h, -⟩
        exact absurd hcol h
    · intro r hr
      rw [handleSelection] at hr
      simp [hcol] at hr
  · have hbeq : (s == e) = false := beq_eq_false_iff_ne.mpr hcol
    by_cases htrim : 0 < (jsTrim (slice content s e)).length
    · have hsel : handleSelection content s e =
          some ⟨s, s + (slice content s e).length, slice content s e⟩ := by
        rw [handleSelection, hbeq]
        simp [htrim]
      constructor
      · exact ⟨fun _ => ⟨hcol, htrim⟩, fun _ => ⟨_, hsel⟩⟩
      · intro r hr
        rw [hsel] at hr
        have hre := Option.some.inj hr
        subst hre
        refine ⟨rfl, ?_, rfl, rfl⟩
        show s + (slice content s e).length = e
        rw [hlen]
        omega
    · have hsel : handleSelection content s e = none := by
        rw [handleSelection, hbeq]
        simp [htrim]
      constructor
      · constructor
        · rintro ⟨r, hr⟩
          rw [hsel] at hr
          exact absurd hr (by simp)
        · rintro ⟨-, h⟩
          exact absurd h htrim
      · intro r hr
        rw [hsel] at hr
        simp at hr

/-- Witness for C7: selection `[5,12)` over a known content yields
`{start: 5, end: 12, text: content[5:12]}`. -/
theorem c7_selection_mapper_witness :
    ((∃ r, handleSelection "Hello, wonderful world".toList 5 12 = some r) ↔
      ((5 : Nat) ≠ 12 ∧
        0 < (jsTrim (slice "Hello, wonderful world".toList 5 12)).length)) ∧
    (∀ r, handleSelection "Hello, wonderful world".toList 5 12 = some r →
      r.start = 5 ∧ r.endPos = 12 ∧
        r.text = slice "Hello, wonderful world".toList 5 12 ∧
        r.endPos = r.start + r.text.length) :=
  c7_selection_mapper "Hello, wonderful world".toList 5 12 (by decide) (by decide)

/-! ### Claim C8: render-state policy for overlapping annotations -/

theorem foldl_add_length (f : Anno → Nat) : ∀ (l : List Anno) (n : Nat),
    l.foldl (fun sum a => sum + f a) n = n + (l.map f).sum
  | [], n => by simp
  | a :: l, n => by
    simp only [List.foldl_cons, List.map_cons, List.sum_cons]
    rw [foldl_add_length f l (n + f a)]
    omega

/-- C8: for every produced segment covered by more than one annotation,
the primary annotation is a covering annotation of maximal timestamp, and
the reply-count badge aggregates `replies.length` over all covering
annotations, not just the primary's. -/
theorem c8_render_policy (content : List Char) (annos : List Anno) (term : List Char)
    (seg : Segment) (_hseg : seg ∈ buildSegments content annos term)
    (hmulti : 1 < seg.coveringAnnos.length) :
    ∃ p, primaryAnno seg.coveringAnnos = some p ∧
      p ∈ seg.coveringAnnos ∧
      (∀ a ∈ seg.coveringAnnos, a.timestamp ≤ p.timestamp) ∧
      totalReplies seg.coveringAnnos =
        (seg.coveringAnnos.map (fun a => (a.replies.getD []).length)).sum := by
  have hsum := foldl_add_length (fun a => (a.replies.getD []).length) seg.coveringAnnos 0
  have hlen : (List.insertionSort byRecency seg.coveringAnnos).length =
      seg.coveringAnnos.length := List.length_insertionSort _ _
  cases hsort : List.insertionSort byRecency seg.coveringAnnos with
  | nil =>
    rw [hsort] at hlen
    simp at hlen
    omega
  | cons p rest =>
    refine ⟨p, ?_, ?_, ?_, ?_⟩
    · rw [primaryAnno, hsort]
      rfl
    · have hp : p ∈ List.insertionSort byRecency seg.coveringAnnos := by
        rw [hsort]
        exact List.mem_cons_self _ _
      exact (List.mem_insertionSort byRecency).mp hp
    · intro a ha
      have hmem : a ∈ List.insertionSort byRecency seg.coveringAnnos :=
        (List.mem_insertionSort byRecency).mpr ha
      rw [hsort] at hmem
      rcases List.mem_cons.mp hmem with heq | hmem'
      · subst heq
        exact le_refl _
      · have hsorted := List.sorted_insertionSort byRecency seg.coveringAnnos
        rw [hsort] at hsorted
        exact List.rel_of_sorted_cons hsorted a hmem'
    · rw [totalReplies]
      simpa using hsum

/-- Witness for C8: the middle segment of the overlapping-annotations
scenario. -/
theorem c8_render_policy_witness :
    ∃ p, primaryAnno segMid.coveringAnnos = some p ∧
      p ∈ segMid.coveringAnnos ∧
      (∀ a ∈ segMid.coveringAnnos, a.timestamp ≤ p.timestamp) ∧
      totalReplies segMid.coveringAnnos =
        (segMid.coveringAnnos.map (fun a => (a.replies.getD []).length)).sum :=
  c8_render_policy "abcdefghijklmno".toList [annoLeft, annoRight] [] segMid
    (by decide) (by decide)

/-! ### Claim C9: removal is idempotent -/

/-- C9: deleting an annotation id twice yields the same store as deleting
it once, and deleting an id not present leaves the store unchanged; both
facts hold for the persisted store's delete and for the in-memory
active-set removal used by ephemeral expiry. -/
theorem c9_delete_idempotent (store : List Anno) (id : String) :
    (deleteAnno id (deleteAnno id store) = deleteAnno id store ∧
      removeActiveAnno id (removeActiveAnno id store) = removeActiveAnno id store) ∧
    ((∀ a ∈ store, a.id ≠ id) →
      deleteAnno id store = store ∧ removeActiveAnno id store = store) := by
  have hidem : (store.filter (fun a => a.id != id)).filter (fun a => a.id != id) =
      store.filter (fun a => a.id != id) :=
    List.filter_eq_self.mpr (fun a ha => (List.mem_filter.mp ha).2)
  have hnoop : (∀ a ∈ store, a.id ≠ id) → store.filter (fun a => a.id != id) = store :=
    fun h => List.filter_eq_self.mpr (fun a ha => bne_iff_ne.mpr (h a ha))
  exact ⟨⟨hidem, hidem⟩, fun h => ⟨hnoop h, hnoop h⟩⟩

/-- Witness for C9: deleting an absent id from a one-element store. -/
theorem c9_delete_idempotent_witness :
    deleteAnno "zz" (deleteAnno "zz" [annoQuick]) = deleteAnno "zz" [annoQuick] ∧
      deleteAnno "zz" [annoQuick] = [annoQuick] :=
  ⟨(c9_delete_idempotent [annoQuick] "zz").1.1,
    ((c9_delete_idempotent [annoQuick] "zz").2 (by decide)).1⟩

/-! ### Claim C10: the comment update is a frame-preserving point update -/

theorem updateAnno_not_found (id c : String) : ∀ store : List Anno,
    (∀ b ∈ store, b.id ≠ id) → updateAnno id c store = store
  | [], _ => rfl
  | b :: rest, h => by
    have hb : b.id ≠ id := h b (List.mem_cons_self _ _)
    rw [updateAnno, if_neg (by simp [hb]),
      updateAnno_not_found id c rest (fun x hx => h x (List.mem_cons_of_mem _ hx))]

theorem updateAnno_found (id c : String) (a : Anno) (ha : a.id = id) : ∀ (pre : List Anno),
    (∀ b ∈ pre, b.id ≠ id) → ∀ post : List Anno,
      updateAnno id c (pre ++ a :: post) = pre ++ setComment a c :: post
  | [], _, post => by
    rw [List.nil_append, updateAnno, if_pos (by simp [ha]), List.nil_append]
  | b :: pre, h, post => by
    have hb : b.id ≠ id := h b (List.mem_cons_self _ _)
    rw [List.cons_append, updateAnno, if_neg (by simp [hb]),
      updateAnno_found id c a ha pre (fun x hx => h x (List.mem_cons_of_mem _ hx)) post,
      List.cons_append]

/-- C10: `updateAnnotation` rewrites only the `comment` field of the first
annotation whose id matches — its id, range, replies, timestamp and all
other fields are unchanged, every other stored annotation is unchanged —
and when no annotation has the given id the store is left entirely
unchanged. -/
theorem c10_update_frame (pre post : List Anno) (a : Anno) (id c : String)
    (hpre : ∀ b ∈ pre, b.id ≠ id) (ha : a.id = id) :
    updateAnno id c (pre ++ a :: post) = pre ++ setComment a c :: post ∧
      (setComment a c).id = a.id ∧ (setComment a c).documentId = a.documentId ∧
      (setComment a c).userId = a.userId ∧ (setComment a c).userName = a.userName ∧
      (setComment a c).userColor = a.userColor ∧ (setComment a c).range = a.range ∧
      (setComment a c).timestamp = a.timestamp ∧ (setComment a c).replies = a.replies ∧
      (setComment a c).comment = c ∧
      (∀ store : List Anno, (∀ b ∈ store, b.id ≠ id) → updateAnno id c store = store) :=
  ⟨updateAnno_found id c a ha pre hpre post, rfl, rfl, rfl, rfl, rfl, rfl, rfl, rfl, rfl,
    fun store h => updateAnno_not_found id c store h⟩

/-- Witness for C10: updating the comment of `annoX` in a three-element
store. -/
theorem c10_update_frame_witness :
    updateAnno "x1" "edited" ([annoQuick] ++ annoX :: [annoAB]) =
        [annoQuick] ++ setComment annoX "edited" :: [annoAB] ∧
      (setComment annoX "edited").id = annoX.id ∧
      (setComment annoX "edited").documentId = annoX.documentId ∧
      (setComment annoX "edited").userId = annoX.userId ∧
      (setComment annoX "edited").userName = annoX.userName ∧
      (setComment annoX "edited").userColor = annoX.userColor ∧
      (setComment annoX "edited").range = annoX.range ∧
      (setComment annoX "edited").timestamp = annoX.timestamp ∧
      (setComment annoX "edited").replies = annoX.replies ∧
      (setComment annoX "edited").comment = "edited" ∧
      (∀ store : List Anno, (∀ b ∈ store, b.id ≠ "x1") →
        updateAnno "x1" "edited" store = store) :=
  c10_update_frame [annoQuick] [annoAB] annoX "x1" "edited" (by decide) (by decide)

end Collab
